import Mathlib

/-!
Verification of the JIT code-generation pipeline in `src/main.rs`
(maekawatoshiki/inkwell-playground).

The Rust program builds LLVM IR at run time through inkwell:
`CodeGen::jit_compile_sum` emits a three-argument integer addition, and
`CodeGen::sum` emits a vectorized four-lane `f64` addition
(`out[i] = x[i] + y[i]`, returning the last lane), then both resolve the
compiled symbol through the execution engine.

The shallow embedding represents the emitted basic block as a list of
SSA-style instructions: every value-producing instruction (constants,
`gep`, `load`, `insertelement`, `fadd`, `add`, `extractelement`) binds the
next SSA id, while `store` and `ret` bind none.  The three function
parameters occupy SSA ids 0, 1 and 2.  The code generator itself is a
direct translation of the Rust emission loops.  Machine `f64` values are
modelled as exact rationals (every concrete scenario in play is exact in
binary64), and `u64`/`i64` arithmetic wraps modulo `2 ^ 64`.  Memory is a
total map from (array, element offset) to a rational, the three arrays
being the two inputs and the output buffer passed by the caller.
-/

/-- The three caller-owned buffers the compiled function can address:
the two inputs `x`, `y` and the output buffer `z` of `main`. -/
inductive ArrName
  | X
  | Y
  | Z
deriving DecidableEq

/-- Element-addressed memory over the caller's buffers. -/
abbrev Mem : Type := ArrName → Nat → ℚ

/-- Run-time values of the embedded IR: `i64` integers (used both for
constant indices and for the integer path of `jit_compile_sum`), `f64`
scalars, `f64` vectors, and pointers into a caller buffer. -/
inductive Val
  | idx (n : Nat)
  | f (q : ℚ)
  | vecF (v : List ℚ)
  | ptr (a : ArrName) (off : Nat)
deriving DecidableEq

/-- Instructions of the embedded IR, operands given as SSA ids.
`constIdx` is `i64_type().const_int(_, false)`, `zeroVec` is
`vec_type(w).const_zero()` (constants are modelled as value-producing
pseudo-instructions), and the rest are the `Builder::build_*` calls used
by the source. -/
inductive Inst
  | constIdx (n : Nat)
  | gep (p i : Nat)
  | load (p : Nat)
  | zeroVec (w : Nat)
  | insertElem (v x i : Nat)
  | fadd (a b : Nat)
  | intAdd (a b : Nat)
  | extractElem (v i : Nat)
  | store (p v : Nat)
  | ret (v : Nat)
deriving DecidableEq

/-- Write one element of one buffer. -/
def writeMem (m : Mem) (a : ArrName) (o : Nat) (q : ℚ) : Mem :=
  fun b j => if b = a ∧ j = o then q else m b j

/-- Look up SSA id `i` in the result environment.  The environment is a
snoc list kept in reverse: the most recently bound value sits at the
head, so id `i` lives at position `length - 1 - i`. -/
def getv (res : List Val) (i : Nat) : Option Val :=
  res.get? (res.length - 1 - i)

/-- Run a straight-line block.  The state is the SSA environment, the
memory and (once `ret` has executed) the returned value; `none` models
malformed IR (an operand of the wrong type or an out-of-range lane),
which the backend would reject.  `fadd` on two equal-length vectors is
LLVM's lane-wise vector addition; on two scalars it is scalar addition.
`insertelement` and `extractelement` demand an in-range lane index. -/
def run : List Inst → List Val → Mem → Option Val → Option (List Val × Mem × Option Val)
  | [], res, mem, r => some (res, mem, r)
  | inst :: rest, res, mem, r =>
    match inst with
    | .constIdx n => run rest (.idx (n % 2 ^ 64) :: res) mem r
    | .gep p i =>
      match getv res p, getv res i with
      | some (.ptr a o), some (.idx n) => run rest (.ptr a (o + n) :: res) mem r
      | _, _ => none
    | .load p =>
      match getv res p with
      | some (.ptr a o) => run rest (.f (mem a o) :: res) mem r
      | _ => none
    | .zeroVec w => run rest (.vecF (List.replicate w 0) :: res) mem r
    | .insertElem v x i =>
      match getv res v, getv res x, getv res i with
      | some (.vecF vv), some (.f q), some (.idx n) =>
        if n < vv.length then run rest (.vecF (vv.set n q) :: res) mem r else none
      | _, _, _ => none
    | .fadd a b =>
      match getv res a, getv res b with
      | some (.f p), some (.f q) => run rest (.f (p + q) :: res) mem r
      | some (.vecF u), some (.vecF w) =>
        if u.length = w.length then
          run rest (.vecF (List.zipWith (fun p q => p + q) u w) :: res) mem r
        else none
      | _, _ => none
    | .intAdd a b =>
      match getv res a, getv res b with
      | some (.idx p), some (.idx q) => run rest (.idx ((p + q) % 2 ^ 64) :: res) mem r
      | _, _ => none
    | .extractElem v i =>
      match getv res v, getv res i with
      | some (.vecF vv), some (.idx n) =>
        match vv.get? n with
        | some q => run rest (.f q :: res) mem r
        | none => none
      | _, _ => none
    | .store p v =>
      match getv res p, getv res v with
      | some (.ptr a o), some (.f q) => run rest res (writeMem mem a o q) r
      | _, _ => none
    | .ret v =>
      match getv res v with
      | some x => run rest res mem (some x)
      | none => none

/-- Initial SSA environment of a call to the vectorized function: the
three pointer parameters (ids 0, 1, 2 — the environment is reversed, so
parameter 0 sits last) point at the base of the caller's buffers. -/
def initRes : List Val := [.ptr .Z 0, .ptr .Y 0, .ptr .X 0]

/-- Invoke a compiled block on the three pointer parameters; yields the
returned `f64` scalar and the final memory. -/
def callProg (prog : List Inst) (mem : Mem) : Option (ℚ × Mem) :=
  match run prog initRes mem none with
  | some (_, m, some (.f q)) => some (q, m)
  | _ => none

/-- Modelled from the spec: the construction entry point
`build_vector_sum(width: u32)` of spec section 6.  Its width-generic
form is missing from the source — `CodeGen::sum` takes no width argument
and fixes `let width = 4` locally (src/main.rs:46).  The body here is the
translation, emission step by emission step, of `CodeGen::sum`
(src/main.rs:43-106) with that local `width` binding abstracted;
`sumBuild` below (the source's own block) is exactly this body at
width 4.  Parameters `x`, `y`, `z` are SSA ids 0, 1, 2; `next` is the id
the next value-producing instruction binds. -/
def build_vector_sum (width : Nat) : List Inst := Id.run do
  let x : Nat := 0
  let y : Nat := 1
  let z : Nat := 2
  let mut insts : Array Inst := #[]
  let mut next : Nat := 3
  let mut x_vals : Array (Nat × Nat) := #[]
  let mut y_vals : Array (Nat × Nat) := #[]
  for i in List.range width do
    insts := insts.push (.constIdx i)
    let idx := next
    next := next + 1
    insts := insts.push (.gep x idx)
    let x_ptr := next
    next := next + 1
    insts := insts.push (.load x_ptr)
    let x_val := next
    next := next + 1
    insts := insts.push (.gep y idx)
    let y_ptr := next
    next := next + 1
    insts := insts.push (.load y_ptr)
    let y_val := next
    next := next + 1
    x_vals := x_vals.push (idx, x_val)
    y_vals := y_vals.push (idx, y_val)
  insts := insts.push (.zeroVec width)
  let mut z_x : Nat := next
  next := next + 1
  for iv in x_vals do
    insts := insts.push (.insertElem z_x iv.2 iv.1)
    z_x := next
    next := next + 1
  insts := insts.push (.zeroVec width)
  let mut z_y : Nat := next
  next := next + 1
  for iv in y_vals do
    insts := insts.push (.insertElem z_y iv.2 iv.1)
    z_y := next
    next := next + 1
  insts := insts.push (.fadd z_x z_y)
  let add := next
  next := next + 1
  let mut add_elems : Array Nat := #[]
  let mut a : Option Nat := none
  for i in List.range width do
    insts := insts.push (.constIdx i)
    let idx := next
    next := next + 1
    insts := insts.push (.extractElem add idx)
    let val := next
    next := next + 1
    a := some val
    add_elems := add_elems.push val
  let mut j : Nat := 0
  for e in add_elems do
    insts := insts.push (.constIdx j)
    let idx := next
    next := next + 1
    insts := insts.push (.gep z idx)
    let p := next
    next := next + 1
    insts := insts.push (.store p e)
    j := j + 1
  insts := insts.push (.ret (a.getD 0))
  return insts.toList

/-- The block emitted by `CodeGen::sum` itself: the body at the source's
fixed local width `4` (src/main.rs:46). -/
def sumBuild : List Inst := build_vector_sum 4

/-- Invoke the compiled vectorized `sum`. -/
def callSum (mem : Mem) : Option (ℚ × Mem) := callProg sumBuild mem

/-- Body of `CodeGen::jit_compile_sum` (src/main.rs:23-41): two wrapping
`i64` additions of the three integer parameters, then a return. -/
def jit_compile_sum_build : List Inst := Id.run do
  let x : Nat := 0
  let y : Nat := 1
  let z : Nat := 2
  let mut insts : Array Inst := #[]
  let mut next : Nat := 3
  insts := insts.push (.intAdd x y)
  let sum := next
  next := next + 1
  insts := insts.push (.intAdd sum z)
  let sum2 := next
  next := next + 1
  insts := insts.push (.ret sum2)
  let _ := next
  return insts.toList

/-- Invoke the compiled integer `sum` on three `u64` arguments (Nat
inputs are reduced modulo `2 ^ 64` at the boundary, as the Rust ABI
guarantees for `u64` values). -/
def callJitSum (x y z : Nat) : Option Nat :=
  match run jit_compile_sum_build [.idx (z % 2 ^ 64), .idx (y % 2 ^ 64), .idx (x % 2 ^ 64)] (fun _ _ => 0) none with
  | some (_, _, some (.idx n)) => some n
  | _ => none

/-- Type descriptors, as created through the inkwell `Context`. -/
inductive Ty
  | f64
  | i64
  | vec (elt : Ty) (w : Nat)
  | ptrTo (elt : Ty)
deriving DecidableEq

/-- A function signature: parameter types plus return type. -/
structure FnTy where
  params : List Ty
  ret : Ty
deriving DecidableEq

/-- `context.f64_type().vec_type(width)` at `width = 4` (src/main.rs:48). -/
def f64_4_ty : Ty := .vec .f64 4

/-- `context.f64_type().ptr_type(AddressSpace::Generic)` (src/main.rs:49). -/
def f64_ptr_ty : Ty := .ptrTo .f64

/-- The signature `CodeGen::sum` declares for the emitted function
(src/main.rs:50-53): `fn_type` of `f64` over three `f64` pointers. -/
def sum_fn_type : FnTy := { params := [f64_ptr_ty, f64_ptr_ty, f64_ptr_ty], ret := .f64 }

/-- The functions declared in the Module by the executed path of the
program: `CodeGen::sum` adds the single function named `sum`
(src/main.rs:54; the `jit_compile_sum` call in `main` is commented out). -/
def moduleFunctions : List (String × List Inst) := [("sum", sumBuild)]

/-- Modelled from the spec: execution-engine symbol resolution.  The
engine behind `execution_engine.get_function(name)` (src/main.rs:105) is
the LLVM JIT, an external dependency, so its lookup is modelled from the
spec's words: resolution returns a callable for a name declared in the
Module and nothing otherwise. -/
def resolve (name : String) : Option (List Inst) :=
  (moduleFunctions.find? (fun p => p.1 == name)).map (fun p => p.2)

/-- The concrete memory of the reference scenario in `main`
(src/main.rs:125-127): every buffer holds `[1, 2, 3, 4]` (the output
buffer `z` starts as a copy of `y`). -/
def exMem : Mem := fun _ j => (j : ℚ) + 1

/-- Zero the output buffer, leaving the inputs untouched (a freshly
zeroed `out` buffer in the spec's idempotence scenario). -/
def zeroOut (mem : Mem) : Mem := fun a j => if a = .Z then 0 else mem a j

/-- The spec's contract for the compiled function at a given vector
width: every lane below `width` of the output buffer receives the lane
sum, and the returned scalar is the last lane (`out[width-1]`). -/
def widthContract (prog : List Inst) (w : Nat) : Prop :=
  ∀ mem : Mem, ∃ r m', callProg prog mem = some (r, m')
    ∧ (∀ i, i < w → m' ArrName.Z i = mem ArrName.X i + mem ArrName.Y i)
    ∧ r = m' ArrName.Z (w - 1)

/-- Recognize the addition instructions of the embedded IR (both the
float and the integer form). -/
def isAddInst : Inst → Bool
  | .fadd _ _ => true
  | .intAdd _ _ => true
  | _ => false

/-- The load section of the emitted block (ids 3-22): for each lane,
`gep`/`load` on `x` and on `y` (src/main.rs:63-73). -/
def loadPhase : List Inst :=
  [.constIdx 0, .gep 0 3, .load 4, .gep 1 3, .load 6,
   .constIdx 1, .gep 0 8, .load 9, .gep 1 8, .load 11,
   .constIdx 2, .gep 0 13, .load 14, .gep 1 13, .load 16,
   .constIdx 3, .gep 0 18, .load 19, .gep 1 18, .load 21]

/-- The section packing the loaded `x` scalars into a vector
(src/main.rs:75-78), generalized over the order `insX` in which the
lanes of `x_vals` are inserted (the source iterates in order
`[0, 1, 2, 3]`).  The `k`-th insertion rebinds the running vector
(id `23 + k`) with the lane value (id `5 + 5*i`) at the constant lane
index (id `3 + 5*i`). -/
def insPhaseX (insX : List Nat) : List Inst :=
  Inst.zeroVec 4 :: (insX.enum.map fun ki => Inst.insertElem (23 + ki.1) (5 + 5 * ki.2) (3 + 5 * ki.2))

/-- The analogous section packing the `y` scalars (src/main.rs:80-83);
the `y` lane value of lane `i` is id `7 + 5*i`. -/
def insPhaseY (insY : List Nat) : List Inst :=
  Inst.zeroVec 4 :: (insY.enum.map fun ki => Inst.insertElem (28 + ki.1) (7 + 5 * ki.2) (3 + 5 * ki.2))

/-- The lane-extraction section (src/main.rs:87-94), generalized over
the order `ext` in which lanes are extracted from the sum vector
(id `33`); the source iterates in order `[0, 1, 2, 3]`. -/
def extPhase (ext : List Nat) : List Inst :=
  ext.enum.flatMap fun ki => [Inst.constIdx ki.2, Inst.extractElem 33 (34 + 2 * ki.1)]

/-- The store section (src/main.rs:96-100): the `k`-th extracted scalar
(id `35 + 2*k`, which carries lane `ext k`) is stored at its own lane
offset in the output buffer, so lane indices are preserved under
reordering. -/
def storePhase (ext : List Nat) : List Inst :=
  ext.enum.flatMap fun ki => [Inst.constIdx ki.2, Inst.gep 2 (42 + 2 * ki.1), Inst.store (43 + 2 * ki.1) (35 + 2 * ki.1)]

/-- Extraction, stores and the final return of the last extracted value
(src/main.rs:87-102). -/
def extStorePhase (ext : List Nat) : List Inst :=
  extPhase ext ++ storePhase ext ++ [Inst.ret 41]

/-- The emitted block with the two vector-packing loops and the
extraction loop generalized to arbitrary lane orders; at the source's
orders (`[0, 1, 2, 3]` everywhere) this is exactly `sumBuild`. -/
def buildSumPerm (insX insY ext : List Nat) : List Inst :=
  loadPhase ++ insPhaseX insX ++ insPhaseY insY ++ [Inst.fadd 27 32] ++ extStorePhase ext

/-- The SSA environment after the load section (reversed: most recent
first), over an arbitrary memory. -/
def loadRes (mem : Mem) : List Val :=
  [.f (mem .Y 3), .ptr .Y 3, .f (mem .X 3), .ptr .X 3, .idx 3,
   .f (mem .Y 2), .ptr .Y 2, .f (mem .X 2), .ptr .X 2, .idx 2,
   .f (mem .Y 1), .ptr .Y 1, .f (mem .X 1), .ptr .X 1, .idx 1,
   .f (mem .Y 0), .ptr .Y 0, .f (mem .X 0), .ptr .X 0, .idx 0,
   .ptr .Z 0, .ptr .Y 0, .ptr .X 0]

/-- The 52 instructions `CodeGen::sum` emits, written out (proved equal
to `sumBuild` below). -/
def sumInstsList : List Inst :=
  [.constIdx 0, .gep 0 3, .load 4, .gep 1 3, .load 6,
   .constIdx 1, .gep 0 8, .load 9, .gep 1 8, .load 11,
   .constIdx 2, .gep 0 13, .load 14, .gep 1 13, .load 16,
   .constIdx 3, .gep 0 18, .load 19, .gep 1 18, .load 21,
   .zeroVec 4, .insertElem 23 5 3, .insertElem 24 10 8, .insertElem 25 15 13, .insertElem 26 20 18,
   .zeroVec 4, .insertElem 28 7 3, .insertElem 29 12 8, .insertElem 30 17 13, .insertElem 31 22 18,
   .fadd 27 32,
   .constIdx 0, .extractElem 33 34, .constIdx 1, .extractElem 33 36,
   .constIdx 2, .extractElem 33 38, .constIdx 3, .extractElem 33 40,
   .constIdx 0, .gep 2 42, .store 43 35,
   .constIdx 1, .gep 2 44, .store 45 37,
   .constIdx 2, .gep 2 46, .store 47 39,
   .constIdx 3, .gep 2 48, .store 49 41,
   .ret 41]

/-- The instructions of the width-1 instance of the construction. -/
def width1Insts : List Inst :=
  [.constIdx 0, .gep 0 3, .load 4, .gep 1 3, .load 6,
   .zeroVec 1, .insertElem 8 5 3,
   .zeroVec 1, .insertElem 10 7 3,
   .fadd 9 11,
   .constIdx 0, .extractElem 12 13,
   .constIdx 0, .gep 2 15, .store 16 14,
   .ret 14]

/-- The memory after a call to the compiled vectorized `sum`: the four
lane sums written to the output buffer, in store order. -/
def sumFinalMem (mem : Mem) : Mem :=
  writeMem (writeMem (writeMem (writeMem mem .Z 0 (mem .X 0 + mem .Y 0))
    .Z 1 (mem .X 1 + mem .Y 1)) .Z 2 (mem .X 2 + mem .Y 2)) .Z 3 (mem .X 3 + mem .Y 3)

/-- The part of the emitted block before the vector addition: loads plus
the two packing loops (at the source's insertion order). -/
def vecPackPart : List Inst := loadPhase ++ insPhaseX [0, 1, 2, 3] ++ insPhaseY [0, 1, 2, 3]

/-- All permutations of the four lane indices. -/
def perms4 : List (List Nat) :=
  [[0, 1, 2, 3], [1, 0, 2, 3], [2, 1, 0, 3], [1, 2, 0, 3], [2, 0, 1, 3], [0, 2, 1, 3],
   [3, 2, 1, 0], [2, 3, 1, 0], [2, 1, 3, 0], [3, 1, 2, 0], [1, 3, 2, 0], [1, 2, 3, 0],
   [3, 0, 1, 2], [0, 3, 1, 2], [0, 1, 3, 2], [3, 1, 0, 2], [1, 3, 0, 2], [1, 0, 3, 2],
   [3, 0, 2, 1], [0, 3, 2, 1], [0, 2, 3, 1], [3, 2, 0, 1], [2, 3, 0, 1], [2, 0, 3, 1]]

theorem sumBuild_lit : sumBuild = sumInstsList := by decide

theorem width1_lit : build_vector_sum 1 = width1Insts := by decide

theorem mem_perms4_of_perm (l : List Nat) (h : List.Perm l [0, 1, 2, 3]) : l ∈ perms4 := by
  obtain ⟨a, b, c, d, rfl⟩ : ∃ a b c d, l = [a, b, c, d] := by
    match l, h.length_eq with
    | [a, b, c, d], _ => exact ⟨a, b, c, d, rfl⟩
  have ha : a < 4 := by
    have : a ∈ [0, 1, 2, 3] := h.mem_iff.mp (by simp)
    simp at this
    omega
  have hb : b < 4 := by
    have : b ∈ [0, 1, 2, 3] := h.mem_iff.mp (by simp)
    simp at this
    omega
  have hc : c < 4 := by
    have : c ∈ [0, 1, 2, 3] := h.mem_iff.mp (by simp)
    simp at this
    omega
  have hd : d < 4 := by
    have : d ∈ [0, 1, 2, 3] := h.mem_iff.mp (by simp)
    simp at this
    omega
  interval_cases a <;> interval_cases b <;> interval_cases c <;> interval_cases d <;>
    revert h <;> decide

theorem callSum_run (mem : Mem) :
    callSum mem = some (mem .X 3 + mem .Y 3, sumFinalMem mem) := by
  unfold callSum callProg
  rw [sumBuild_lit]
  rfl

/-- C1: for every memory state, calling the compiled vectorized function
writes every lane sum `x[i] + y[i]` to the output buffer and returns the
last lane; in the reference scenario (all buffers `[1, 2, 3, 4]`) it
writes `[2, 4, 6, 8]` and returns `8`. -/
theorem sum_call_correct (mem : Mem) :
    ∃ r m', callSum mem = some (r, m')
      ∧ m' ArrName.Z 0 = mem ArrName.X 0 + mem ArrName.Y 0
      ∧ m' ArrName.Z 1 = mem ArrName.X 1 + mem ArrName.Y 1
      ∧ m' ArrName.Z 2 = mem ArrName.X 2 + mem ArrName.Y 2
      ∧ m' ArrName.Z 3 = mem ArrName.X 3 + mem ArrName.Y 3
      ∧ r = m' ArrName.Z 3
      ∧ (∃ m2, callSum exMem = some (8, m2)
          ∧ m2 ArrName.Z 0 = 2 ∧ m2 ArrName.Z 1 = 4 ∧ m2 ArrName.Z 2 = 6 ∧ m2 ArrName.Z 3 = 8) := by
  refine ⟨_, _, callSum_run mem, ?_, ?_, ?_, ?_, ?_, ?_⟩
  · simp [sumFinalMem, writeMem]
  · simp [sumFinalMem, writeMem]
  · simp [sumFinalMem, writeMem]
  · simp [sumFinalMem, writeMem]
  · simp [sumFinalMem, writeMem]
  · refine ⟨sumFinalMem exMem, ?_, ?_, ?_, ?_, ?_⟩
    · rw [callSum_run exMem]
      norm_num [exMem]
    · norm_num [sumFinalMem, writeMem, exMem]
    · norm_num [sumFinalMem, writeMem, exMem]
    · norm_num [sumFinalMem, writeMem, exMem]
    · norm_num [sumFinalMem, writeMem, exMem]

/-- C2: the declared signature is three `f64` pointers returning an
`f64` scalar; the first two pointers are only read (the inputs), the
third is the written output buffer. -/
theorem sum_signature_correct (mem : Mem) :
    sum_fn_type = { params := [Ty.ptrTo Ty.f64, Ty.ptrTo Ty.f64, Ty.ptrTo Ty.f64], ret := Ty.f64 }
    ∧ ∃ r m', callSum mem = some (r, m')
        ∧ (∀ j, m' ArrName.X j = mem ArrName.X j)
        ∧ (∀ j, m' ArrName.Y j = mem ArrName.Y j)
        ∧ m' ArrName.Z 0 = mem ArrName.X 0 + mem ArrName.Y 0 := by
  refine ⟨rfl, _, _, callSum_run mem, fun j => ?_, fun j => ?_, ?_⟩
  · simp [sumFinalMem, writeMem]
  · simp [sumFinalMem, writeMem]
  · simp [sumFinalMem, writeMem]

/-- C10: a call writes only through the output pointer at offsets 0-3:
both inputs are unchanged at every offset, and the output buffer is
unchanged from offset 4 on. -/
theorem sum_frame_effect (mem : Mem) :
    ∃ r m', callSum mem = some (r, m')
      ∧ (∀ j, m' ArrName.X j = mem ArrName.X j)
      ∧ (∀ j, m' ArrName.Y j = mem ArrName.Y j)
      ∧ (∀ j, m' ArrName.Z (4 + j) = mem ArrName.Z (4 + j)) := by
  refine ⟨_, _, callSum_run mem, fun j => ?_, fun j => ?_, fun j => ?_⟩
  · simp [sumFinalMem, writeMem]
  · simp [sumFinalMem, writeMem]
  · have h0 : 4 + j ≠ 0 := by omega
    have h1 : 4 + j ≠ 1 := by omega
    have h2 : 4 + j ≠ 2 := by omega
    have h3 : 4 + j ≠ 3 := by omega
    simp [sumFinalMem, writeMem, h0, h1, h2, h3]

/-- C7: two calls on the same inputs with a freshly zeroed output buffer
each time produce the same returned scalar and the same memory — the
compiled function has no hidden state. -/
theorem sum_idempotent (mem : Mem) :
    ∃ r1 m1 r2 m2, callSum (zeroOut mem) = some (r1, m1)
      ∧ callSum (zeroOut m1) = some (r2, m2)
      ∧ r2 = r1
      ∧ (∀ a j, m2 a j = m1 a j) := by
  refine ⟨_, _, _, _, callSum_run (zeroOut mem), callSum_run (zeroOut (sumFinalMem (zeroOut mem))), ?_, ?_⟩
  · simp [sumFinalMem, writeMem, zeroOut]
  · intro a j
    cases a
    · simp [sumFinalMem, writeMem, zeroOut]
    · simp [sumFinalMem, writeMem, zeroOut]
    · rcases j with _ | _ | _ | _ | j
      · simp [sumFinalMem, writeMem, zeroOut]
      · simp [sumFinalMem, writeMem, zeroOut]
      · simp [sumFinalMem, writeMem, zeroOut]
      · simp [sumFinalMem, writeMem, zeroOut]
      · simp [sumFinalMem, writeMem, zeroOut]

/-- C3 counterexample: the construction entry point does not behave as a
width-parametric `build_vector_sum(width)`: the compiled function it
returns violates the width-1 contract (on the reference memory it
returns lane 3's sum, 8, not `out[0] = 2`), because the source's `sum`
takes no width argument and hardwires `width = 4`. -/
theorem sum_width_param_cex : ¬ widthContract sumBuild 1 := by
  intro h
  obtain ⟨r, m', he, hl, hr⟩ := h exMem
  have hrun : callProg sumBuild exMem = some (exMem ArrName.X 3 + exMem ArrName.Y 3, sumFinalMem exMem) :=
    callSum_run exMem
  rw [hrun] at he
  obtain ⟨rfl, rfl⟩ : exMem ArrName.X 3 + exMem ArrName.Y 3 = r ∧ sumFinalMem exMem = m' := by
    simpa using he
  have h2 : exMem ArrName.X 3 + exMem ArrName.Y 3 = sumFinalMem exMem ArrName.Z 0 := hr
  norm_num [exMem, sumFinalMem, writeMem] at h2

/-- C3 amended: the entry point takes no width parameter (the width is
the fixed local constant 4), and the compiled function it returns
satisfies the width contract at width 4: every lane below 4 receives the
lane sum and the returned scalar is `out[3]`. -/
theorem sum_width4_contract : widthContract sumBuild 4 := by
  intro mem
  refine ⟨_, _, callSum_run mem, fun i hi => ?_, ?_⟩
  · interval_cases i <;> simp [sumFinalMem, writeMem]
  · simp [sumFinalMem, writeMem]

/-- Witness for the width-4 contract at the reference memory. -/
theorem sum_width4_contract_w :
    ∃ r m', callProg sumBuild exMem = some (r, m')
      ∧ m' ArrName.Z 2 = exMem ArrName.X 2 + exMem ArrName.Y 2 := by
  obtain ⟨r, m', he, hl, _⟩ := sum_width4_contract exMem
  exact ⟨r, m', he, hl 2 (by norm_num)⟩

/-- C9: the integer path `jit_compile_sum` computes the wrapping sum of
its three `u64` arguments: the returned value is `(x + y + z) % 2 ^ 64`. -/
theorem jit_sum_mod_correct (x y z : Nat) :
    callJitSum x y z = some ((x + y + z) % 2 ^ 64) := by
  have h : callJitSum x y z = some (((x % 2 ^ 64 + y % 2 ^ 64) % 2 ^ 64 + z % 2 ^ 64) % 2 ^ 64) := rfl
  rw [h, Nat.add_mod (x + y) z, Nat.add_mod x y]

/-- C6: resolving a name that was never declared in the Module yields no
callable. -/
theorem resolve_undeclared (name : String) (h : ¬ name ∈ moduleFunctions.map Prod.fst) :
    resolve name = none := by
  simp [moduleFunctions] at h
  have hb : ("sum" == name) = false := beq_eq_false_iff_ne.mpr (Ne.symm h)
  simp [resolve, moduleFunctions, List.find?, hb]

/-- Witness: a concrete never-declared name resolves to nothing. -/
theorem resolve_undeclared_w : resolve "square" = none :=
  resolve_undeclared "square" (by decide)

/-- C5: at width 1 the construction emits a single addition and the
compiled function degenerates to plain scalar addition: it writes
`x[0] + y[0]` to `out[0]` (touching nothing else) and returns it. -/
theorem sum_width1_scalar_add :
    (build_vector_sum 1).filter isAddInst = [Inst.fadd 9 11]
    ∧ ∀ mem : Mem, ∃ m',
        callProg (build_vector_sum 1) mem = some (mem ArrName.X 0 + mem ArrName.Y 0, m')
        ∧ m' ArrName.Z 0 = mem ArrName.X 0 + mem ArrName.Y 0
        ∧ (∀ j, m' ArrName.X j = mem ArrName.X j)
        ∧ (∀ j, m' ArrName.Y j = mem ArrName.Y j)
        ∧ (∀ j, m' ArrName.Z (1 + j) = mem ArrName.Z (1 + j)) := by
  refine ⟨by decide, fun mem => ?_⟩
  have hrun : callProg (build_vector_sum 1) mem
      = some (mem ArrName.X 0 + mem ArrName.Y 0, writeMem mem ArrName.Z 0 (mem ArrName.X 0 + mem ArrName.Y 0)) := by
    unfold callProg
    rw [width1_lit]
    rfl
  refine ⟨_, hrun, ?_, fun j => ?_, fun j => ?_, fun j => ?_⟩
  · simp [writeMem]
  · simp [writeMem]
  · simp [writeMem]
  · have h0 : 1 + j ≠ 0 := by omega
    simp [writeMem, h0]

theorem run_loadPhase (mem : Mem) (k : List Inst) (r : Option Val) :
    run (loadPhase ++ k) initRes mem r = run k (loadRes mem) mem r := rfl

theorem run_insPhaseX (insX : List Nat) (h : List.Perm insX [0, 1, 2, 3]) (mem : Mem) :
    ∃ j1 j2 j3 j4 : Val, ∀ (k : List Inst) (r : Option Val),
      run (insPhaseX insX ++ k) (loadRes mem) mem r =
        run k (.vecF [mem ArrName.X 0, mem ArrName.X 1, mem ArrName.X 2, mem ArrName.X 3]
          :: j1 :: j2 :: j3 :: j4 :: loadRes mem) mem r := by
  have h2 := mem_perms4_of_perm insX h
  fin_cases h2 <;> exact ⟨_, _, _, _, fun k r => rfl⟩

theorem run_insPhaseY (insY : List Nat) (h : List.Perm insY [0, 1, 2, 3]) (mem : Mem)
    (t0 t1 t2 t3 t4 : Val) :
    ∃ u1 u2 u3 u4 : Val, ∀ (k : List Inst) (r : Option Val),
      run (insPhaseY insY ++ k) (t0 :: t1 :: t2 :: t3 :: t4 :: loadRes mem) mem r =
        run k (.vecF [mem ArrName.Y 0, mem ArrName.Y 1, mem ArrName.Y 2, mem ArrName.Y 3]
          :: u1 :: u2 :: u3 :: u4 :: t0 :: t1 :: t2 :: t3 :: t4 :: loadRes mem) mem r := by
  have h2 := mem_perms4_of_perm insY h
  fin_cases h2 <;> exact ⟨_, _, _, _, fun k r => rfl⟩

theorem run_vecAdd (x0 x1 x2 x3 y0 y1 y2 y3 : ℚ) (u1 u2 u3 u4 t1 t2 t3 t4 : Val)
    (mem : Mem) (k : List Inst) (r : Option Val) :
    run (Inst.fadd 27 32 :: k)
      (.vecF [y0, y1, y2, y3] :: u1 :: u2 :: u3 :: u4
        :: .vecF [x0, x1, x2, x3] :: t1 :: t2 :: t3 :: t4 :: loadRes mem) mem r =
    run k (.vecF [x0 + y0, x1 + y1, x2 + y2, x3 + y3]
      :: .vecF [y0, y1, y2, y3] :: u1 :: u2 :: u3 :: u4
      :: .vecF [x0, x1, x2, x3] :: t1 :: t2 :: t3 :: t4 :: loadRes mem) mem r := rfl

theorem run_extStore (ext : List Nat) (h : List.Perm ext [0, 1, 2, 3]) (s0 s1 s2 s3 : ℚ)
    (c1 c2 c3 c4 c5 c6 c7 c8 c9 c10 : Val) (mem : Mem) :
    ∃ (res' : List Val) (m' : Mem),
      run (extStorePhase ext)
        (.vecF [s0, s1, s2, s3] :: c1 :: c2 :: c3 :: c4 :: c5 :: c6 :: c7 :: c8 :: c9 :: c10
          :: loadRes mem) mem none
        = some (res', m', some (.f ([s0, s1, s2, s3].getD (ext.getD 3 0) 0)))
      ∧ (m' ArrName.Z 0 = s0 ∧ m' ArrName.Z 1 = s1 ∧ m' ArrName.Z 2 = s2 ∧ m' ArrName.Z 3 = s3)
      ∧ (∀ j, m' ArrName.X j = mem ArrName.X j)
      ∧ (∀ j, m' ArrName.Y j = mem ArrName.Y j)
      ∧ (∀ j, m' ArrName.Z (4 + j) = mem ArrName.Z (4 + j)) := by
  have h2 := mem_perms4_of_perm ext h
  fin_cases h2 <;>
    exact ⟨_, _, rfl,
      ⟨by simp [writeMem], by simp [writeMem], by simp [writeMem], by simp [writeMem]⟩,
      fun j => by simp [writeMem],
      fun j => by simp [writeMem],
      fun j => by
        have e0 : 4 + j ≠ 0 := by omega
        have e1 : 4 + j ≠ 1 := by omega
        have e2 : 4 + j ≠ 2 := by omega
        have e3 : 4 + j ≠ 3 := by omega
        simp [writeMem, e0, e1, e2, e3]⟩

/-- C8: packing the two input vectors in any lane order, and extracting
and storing the result lanes in any lane order, yields the same output
buffer as the source's in-order emission (which is the identity-order
instance of the generalized construction). -/
theorem sum_reorder_same_out (insX insY ext : List Nat)
    (hX : List.Perm insX [0, 1, 2, 3]) (hY : List.Perm insY [0, 1, 2, 3])
    (hE : List.Perm ext [0, 1, 2, 3]) (mem : Mem) :
    ∃ r m' r0 m0,
      callProg (buildSumPerm insX insY ext) mem = some (r, m')
      ∧ callSum mem = some (r0, m0)
      ∧ m' ArrName.Z 0 = m0 ArrName.Z 0 ∧ m' ArrName.Z 1 = m0 ArrName.Z 1
      ∧ m' ArrName.Z 2 = m0 ArrName.Z 2 ∧ m' ArrName.Z 3 = m0 ArrName.Z 3
      ∧ buildSumPerm [0, 1, 2, 3] [0, 1, 2, 3] [0, 1, 2, 3] = sumBuild := by
  obtain ⟨j1, j2, j3, j4, hIX⟩ := run_insPhaseX insX hX mem
  obtain ⟨u1, u2, u3, u4, hIY⟩ := run_insPhaseY insY hY mem
    (.vecF [mem ArrName.X 0, mem ArrName.X 1, mem ArrName.X 2, mem ArrName.X 3]) j1 j2 j3 j4
  obtain ⟨res', m', hES, hlanes, hXf, hYf, hZf⟩ := run_extStore ext hE
    (mem ArrName.X 0 + mem ArrName.Y 0) (mem ArrName.X 1 + mem ArrName.Y 1)
    (mem ArrName.X 2 + mem ArrName.Y 2) (mem ArrName.X 3 + mem ArrName.Y 3)
    (.vecF [mem ArrName.Y 0, mem ArrName.Y 1, mem ArrName.Y 2, mem ArrName.Y 3]) u1 u2 u3 u4
    (.vecF [mem ArrName.X 0, mem ArrName.X 1, mem ArrName.X 2, mem ArrName.X 3]) j1 j2 j3 j4 mem
  have hassoc : buildSumPerm insX insY ext
      = loadPhase ++ (insPhaseX insX ++ (insPhaseY insY ++ (Inst.fadd 27 32 :: extStorePhase ext))) := by
    simp [buildSumPerm, List.append_assoc]
  refine ⟨[mem ArrName.X 0 + mem ArrName.Y 0, mem ArrName.X 1 + mem ArrName.Y 1,
      mem ArrName.X 2 + mem ArrName.Y 2, mem ArrName.X 3 + mem ArrName.Y 3].getD (ext.getD 3 0) 0,
    m', mem ArrName.X 3 + mem ArrName.Y 3, sumFinalMem mem, ?_, callSum_run mem, ?_, ?_, ?_, ?_, ?_⟩
  · unfold callProg
    rw [hassoc, run_loadPhase, hIX, hIY, run_vecAdd, hES]
  · rw [hlanes.1]
    simp [sumFinalMem, writeMem]
  · rw [hlanes.2.1]
    simp [sumFinalMem, writeMem]
  · rw [hlanes.2.2.1]
    simp [sumFinalMem, writeMem]
  · rw [hlanes.2.2.2]
    simp [sumFinalMem, writeMem]
  · rw [sumBuild_lit]
    decide

/-- Witness for the reordering theorem at concrete permuted orders and
the reference memory. -/
theorem sum_reorder_same_out_w :
    ∃ r m' r0 m0,
      callProg (buildSumPerm [1, 0, 3, 2] [2, 3, 0, 1] [3, 1, 0, 2]) exMem = some (r, m')
      ∧ callSum exMem = some (r0, m0)
      ∧ m' ArrName.Z 0 = m0 ArrName.Z 0 ∧ m' ArrName.Z 1 = m0 ArrName.Z 1
      ∧ m' ArrName.Z 2 = m0 ArrName.Z 2 ∧ m' ArrName.Z 3 = m0 ArrName.Z 3
      ∧ buildSumPerm [0, 1, 2, 3] [0, 1, 2, 3] [0, 1, 2, 3] = sumBuild :=
  sum_reorder_same_out [1, 0, 3, 2] [2, 3, 0, 1] [3, 1, 0, 2]
    (by decide) (by decide) (by decide) exMem

/-- C4: the emitted block contains exactly one addition instruction —
the single `fadd` of SSA ids 27 and 32 — and at that point ids 27 and 32
hold the two packed width-4 vectors, so the addition is one vector
(lane-wise) instruction rather than four scalar ones. -/
theorem sum_single_vector_add (mem : Mem) :
    sumBuild.filter isAddInst = [Inst.fadd 27 32]
    ∧ sumBuild = vecPackPart ++ (Inst.fadd 27 32 :: extStorePhase [0, 1, 2, 3])
    ∧ ∃ env : List Val,
        (∀ (k : List Inst) (r : Option Val), run (vecPackPart ++ k) initRes mem r = run k env mem r)
        ∧ getv env 27 = some (.vecF [mem ArrName.X 0, mem ArrName.X 1, mem ArrName.X 2, mem ArrName.X 3])
        ∧ getv env 32 = some (.vecF [mem ArrName.Y 0, mem ArrName.Y 1, mem ArrName.Y 2, mem ArrName.Y 3]) := by
  refine ⟨by decide, by decide, _, fun k r => rfl, rfl, rfl⟩
